import Mathlib

/-!
Verification of the tiling, correspondence and disk-wrapper core of the
CARS repository (`cars/core/tiling.py`, `cars/orchestrator/cluster/wrapper.py`).

Coordinates are modelled as rationals (the Python code computes with floats;
all operations used here are min/max/comparison, addition, multiplication and
floor/ceil of a quotient, which are exact on representable inputs).
Regions follow the source convention `[xmin, ymin, xmax, ymax]`.
-/

namespace Cars

/-- A 2D point, as the source's pairs of coordinates. -/
abbrev Point := ℚ × ℚ

/-- A region `[xmin, ymin, xmax, ymax]`, as the 4-element lists of `tiling.py`. -/
structure Region where
  xmin : ℚ
  ymin : ℚ
  xmax : ℚ
  ymax : ℚ
deriving DecidableEq

/-- Embedding of `tiling.crop(region1, region2)`: each edge of `region1`
clamped into `region2` (lines 138-144 of `tiling.py`). -/
def crop (region1 region2 : Region) : Region where
  xmin := min region2.xmax (max region2.xmin region1.xmin)
  ymin := min region2.ymax (max region2.ymin region1.ymin)
  xmax := min region2.xmax (max region2.xmin region1.xmax)
  ymax := min region2.ymax (max region2.ymin region1.ymax)

/-- Embedding of `tiling.empty(region)`:
`region[0] >= region[2] or region[1] >= region[3]`. -/
def empty (region : Region) : Bool :=
  decide (region.xmin ≥ region.xmax) || decide (region.ymin ≥ region.ymax)

/-- Embedding of `tiling.union(regions)`: component-wise min of the `xmin`s and
`ymin`s and max of the `xmax`s and `ymax`s. Python's `min`/`max` on an empty
generator raises `ValueError`; the failure is modelled by `Option.none`. -/
def union (regions : List Region) : Option Region :=
  match regions with
  | [] => none
  | r :: rs =>
    some
      { xmin := rs.foldl (fun acc s => min acc s.xmin) r.xmin
        ymin := rs.foldl (fun acc s => min acc s.ymin) r.ymin
        xmax := rs.foldl (fun acc s => max acc s.xmax) r.xmax
        ymax := rs.foldl (fun acc s => max acc s.ymax) r.ymax }

/-- Shape-and-contents view of the numpy array returned by `tiling.grid`:
`rows × cols` corner positions, `corner j i` being entry `[j, i, 0:2]`. -/
structure GridArr where
  rows : ℕ
  cols : ℕ
  corner : ℕ → ℕ → Point

/-- Embedding of `tiling.grid(xmin, ymin, xmax, ymax, xsplit, ysplit)`:
an array of shape `(nb_ysplits + 1, nb_xsplits + 1, 2)` with
`out_grid[j, i] = (min(xmax, xmin + i * xsplit), min(ymax, ymin + j * ysplit))`. -/
def grid (xmin ymin xmax ymax : ℚ) (xsplit ysplit : ℚ) : GridArr where
  rows := (⌈(ymax - ymin) / ysplit⌉).toNat + 1
  cols := (⌈(xmax - xmin) / xsplit⌉).toNat + 1
  corner := fun j i =>
    (min xmax (xmin + (i : ℚ) * xsplit), min ymax (ymin + (j : ℚ) * ysplit))

/-- One element of the list returned by `tiling.list_tiles`: the dict
`{"idx": tile_idx_x, "idy": tile_idx_y, "tile": tile}`. -/
structure Tile where
  idx : ℤ
  idy : ℤ
  tile : Region
deriving DecidableEq

/-- The half-open integer interval `[a, b)`, as Python's `range(a, b)`. -/
def intRange (a b : ℤ) : List ℤ :=
  (List.range (b - a).toNat).map (fun (n : ℕ) => a + (n : ℤ))

/-- The uncropped box of the tile of index `(ix, iy)` for tile size `t`:
`[ix * t, iy * t, (ix + 1) * t, (iy + 1) * t]`. -/
def tileBox (ix iy : ℤ) (t : ℚ) : Region where
  xmin := (ix : ℚ) * t
  ymin := (iy : ℚ) * t
  xmax := ((ix : ℚ) + 1) * t
  ymax := ((iy : ℚ) + 1) * t

/-- Embedding of `tiling.list_tiles(region, largest_region, tile_size, margin)`
(lines 213-246): index ranges by floor/ceil of the region edges divided by the
tile size, expanded by `margin`, outer loop on the x index, inner on the y
index, each tile cropped to `largest_region` and dropped when empty.
The source declares `margin=1` as default; callers passing no margin get 1. -/
def list_tiles (region largest_region : Region) (tile_size : ℚ) (margin : ℤ) :
    List Tile :=
  let min_tile_idx_x := ⌊region.xmin / tile_size⌋ - margin
  let max_tile_idx_x := ⌈region.xmax / tile_size⌉ + margin
  let min_tile_idx_y := ⌊region.ymin / tile_size⌋ - margin
  let max_tile_idx_y := ⌈region.ymax / tile_size⌉ + margin
  (intRange min_tile_idx_x max_tile_idx_x).flatMap (fun tile_idx_x =>
    (intRange min_tile_idx_y max_tile_idx_y).filterMap (fun tile_idx_y =>
      let tile := crop (tileBox tile_idx_x tile_idx_y tile_size) largest_region
      if empty tile then none else some ⟨tile_idx_x, tile_idx_y, tile⟩))

/-- Two regions overlap on a set of positive area (share interior points). -/
def overlaps (a b : Region) : Prop :=
  a.xmin < b.xmax ∧ b.xmin < a.xmax ∧ a.ymin < b.ymax ∧ b.ymin < a.ymax

instance (a b : Region) : Decidable (overlaps a b) := by
  unfold overlaps; infer_instance

lemma mem_intRange {a b x : ℤ} : x ∈ intRange a b ↔ a ≤ x ∧ x < b := by
  unfold intRange
  constructor
  · intro h
    obtain ⟨n, hn, hx⟩ := List.mem_map.mp h
    have h2 := List.mem_range.mp hn
    omega
  · intro h
    exact List.mem_map.mpr
      ⟨(x - a).toNat, List.mem_range.mpr (by omega), by omega⟩

lemma empty_eq_false_iff {r : Region} :
    empty r = false ↔ r.xmin < r.xmax ∧ r.ymin < r.ymax := by
  unfold empty
  simp only [Bool.or_eq_false_iff, decide_eq_false_iff_not, not_le, ge_iff_le]

/-- Membership in `list_tiles`: index within the margin-expanded floor/ceil
ranges, box cropped to the bounding region, and non-empty. -/
lemma mem_list_tiles {region largest : Region} {t : ℚ} {m : ℤ} {tl : Tile} :
    tl ∈ list_tiles region largest t m ↔
      (⌊region.xmin / t⌋ - m ≤ tl.idx ∧ tl.idx < ⌈region.xmax / t⌉ + m ∧
       ⌊region.ymin / t⌋ - m ≤ tl.idy ∧ tl.idy < ⌈region.ymax / t⌉ + m ∧
       tl.tile = crop (tileBox tl.idx tl.idy t) largest ∧
       empty tl.tile = false) := by
  obtain ⟨ix0, iy0, tr0⟩ := tl
  unfold list_tiles
  simp only [List.mem_flatMap, List.mem_filterMap, mem_intRange]
  constructor
  · rintro ⟨ix, ⟨hx1, hx2⟩, iy, ⟨hy1, hy2⟩, hif⟩
    by_cases he : empty (crop (tileBox ix iy t) largest) = true
    · simp [he] at hif
    · simp only [Bool.not_eq_true] at he
      simp only [he, Bool.false_eq_true, if_false, Option.some.injEq,
        Tile.mk.injEq] at hif
      obtain ⟨rfl, rfl, rfl⟩ := hif
      exact ⟨hx1, hx2, hy1, hy2, rfl, he⟩
  · rintro ⟨hx1, hx2, hy1, hy2, htile, hne⟩
    subst htile
    refine ⟨ix0, ⟨hx1, hx2⟩, iy0, ⟨hy1, hy2⟩, ?_⟩
    simp only [hne, Bool.false_eq_true, if_false]

lemma floor_div_le_iff {a t : ℚ} {z : ℤ} (ht : 0 < t) :
    ⌊a / t⌋ ≤ z ↔ a < ((z : ℚ) + 1) * t := by
  rw [Int.floor_le_iff, div_lt_iff₀ ht]

lemma lt_ceil_div_iff {a t : ℚ} {z : ℤ} (ht : 0 < t) :
    z < ⌈a / t⌉ ↔ (z : ℚ) * t < a := by
  rw [Int.lt_ceil, lt_div_iff₀ ht]

/-- C5: for `xmin ≤ xmax`, `ymin ≤ ymax` and positive steps, `grid` returns
`⌈(ymax-ymin)/ysplit⌉+1` rows and `⌈(xmax-xmin)/xsplit⌉+1` columns of corners,
corner `[j,i]` equals `(min xmax (xmin+i·xsplit), min ymax (ymin+j·ysplit))`,
and every corner stays inside the bounding box (border cells are shrunk,
never enlarged). -/
theorem grid_corners_in_box (xmin ymin xmax ymax xsplit ysplit : ℚ)
    (hx : xmin ≤ xmax) (hy : ymin ≤ ymax)
    (hxs : 0 < xsplit) (hys : 0 < ysplit) :
    (grid xmin ymin xmax ymax xsplit ysplit).rows =
      (⌈(ymax - ymin) / ysplit⌉).toNat + 1 ∧
    (grid xmin ymin xmax ymax xsplit ysplit).cols =
      (⌈(xmax - xmin) / xsplit⌉).toNat + 1 ∧
    ∀ j i : ℕ,
      (grid xmin ymin xmax ymax xsplit ysplit).corner j i =
        (min xmax (xmin + (i : ℚ) * xsplit),
         min ymax (ymin + (j : ℚ) * ysplit)) ∧
      xmin ≤ ((grid xmin ymin xmax ymax xsplit ysplit).corner j i).1 ∧
      ((grid xmin ymin xmax ymax xsplit ysplit).corner j i).1 ≤ xmax ∧
      ymin ≤ ((grid xmin ymin xmax ymax xsplit ysplit).corner j i).2 ∧
      ((grid xmin ymin xmax ymax xsplit ysplit).corner j i).2 ≤ ymax := by
  refine ⟨rfl, rfl, fun j i => ⟨rfl, ?_, ?_, ?_, ?_⟩⟩
  · exact le_min hx (le_add_of_nonneg_right
      (mul_nonneg (Nat.cast_nonneg i) hxs.le))
  · exact min_le_left _ _
  · exact le_min hy (le_add_of_nonneg_right
      (mul_nonneg (Nat.cast_nonneg j) hys.le))
  · exact min_le_left _ _

/-- Witness for C5 at a concrete grid. -/
theorem grid_corners_in_box_witness :
    (0 : ℚ) ≤ 5 ∧ (0 : ℚ) < 2 ∧
    ((grid 0 0 5 3 2 2).corner 1 2).1 ≤ 5 ∧
    (0 : ℚ) ≤ ((grid 0 0 5 3 2 2).corner 1 2).2 := by
  have h := grid_corners_in_box 0 0 5 3 2 2
    (by norm_num) (by norm_num) (by norm_num) (by norm_num)
  exact ⟨by norm_num, by norm_num, ((h.2.2 1 2).2.2.1), ((h.2.2 1 2).2.2.2.1)⟩

/-- C6: with `margin = 0` and a positive tile size, `list_tiles` returns
exactly the tiles whose uncropped box shares interior points with `region`
(so a region edge exactly on a tile boundary goes to the lower-index tile),
each carrying its box cropped to `largest_region`, non-empty. -/
theorem list_tiles_margin_zero_exact (region largest : Region) (t : ℚ)
    (ht : 0 < t) (_hne : empty region = false) (tl : Tile) :
    tl ∈ list_tiles region largest t 0 ↔
      (overlaps (tileBox tl.idx tl.idy t) region ∧
       tl.tile = crop (tileBox tl.idx tl.idy t) largest ∧
       empty tl.tile = false) := by
  rw [mem_list_tiles]
  simp only [sub_zero, add_zero]
  unfold overlaps tileBox
  dsimp only
  rw [floor_div_le_iff ht, floor_div_le_iff ht, lt_ceil_div_iff ht,
    lt_ceil_div_iff ht]
  tauto

/-- Witness for C6: the tile `(0,0)` of size 10 is listed for the region
`[0,0,5,5]` inside `[0,0,25,25]` at margin 0. -/
theorem list_tiles_margin_zero_exact_witness :
    (⟨0, 0, ⟨0, 0, 10, 10⟩⟩ : Tile) ∈
      list_tiles ⟨0, 0, 5, 5⟩ ⟨0, 0, 25, 25⟩ 10 0 := by
  refine (list_tiles_margin_zero_exact ⟨0, 0, 5, 5⟩ ⟨0, 0, 25, 25⟩ 10
    (by norm_num) (by norm_num [empty]) _).mpr ?_
  refine ⟨?_, ?_, ?_⟩
  · unfold overlaps tileBox
    norm_num
  · show (⟨0, 0, 10, 10⟩ : Region) = _
    unfold crop tileBox
    simp only [Region.mk.injEq]
    norm_num
  · norm_num [empty]

lemma foldl_min_spec (f : Region → ℚ) (a : ℚ) (l : List Region) :
    (l.foldl (fun acc s => min acc (f s)) a ≤ a) ∧
    (∀ s ∈ l, l.foldl (fun acc s => min acc (f s)) a ≤ f s) ∧
    (l.foldl (fun acc s => min acc (f s)) a = a ∨
      ∃ s ∈ l, l.foldl (fun acc s => min acc (f s)) a = f s) := by
  induction l generalizing a with
  | nil => exact ⟨le_refl _, by simp, Or.inl rfl⟩
  | cons b l ih =>
    obtain ⟨h1, h2, h3⟩ := ih (min a (f b))
    refine ⟨le_trans h1 (min_le_left _ _), ?_, ?_⟩
    · intro s hs
      rcases List.mem_cons.mp hs with rfl | hs
      · exact le_trans h1 (min_le_right _ _)
      · exact h2 s hs
    · rcases h3 with h3 | ⟨s, hs, h3⟩
      · rcases min_choice a (f b) with hm | hm
        · exact Or.inl (by rw [List.foldl_cons, h3, hm])
        · exact Or.inr ⟨b, List.mem_cons_self _ _, by rw [List.foldl_cons, h3, hm]⟩
      · exact Or.inr ⟨s, List.mem_cons_of_mem _ hs, h3⟩

lemma foldl_max_spec (f : Region → ℚ) (a : ℚ) (l : List Region) :
    (a ≤ l.foldl (fun acc s => max acc (f s)) a) ∧
    (∀ s ∈ l, f s ≤ l.foldl (fun acc s => max acc (f s)) a) ∧
    (l.foldl (fun acc s => max acc (f s)) a = a ∨
      ∃ s ∈ l, l.foldl (fun acc s => max acc (f s)) a = f s) := by
  induction l generalizing a with
  | nil => exact ⟨le_refl _, by simp, Or.inl rfl⟩
  | cons b l ih =>
    obtain ⟨h1, h2, h3⟩ := ih (max a (f b))
    refine ⟨le_trans (le_max_left _ _) h1, ?_, ?_⟩
    · intro s hs
      rcases List.mem_cons.mp hs with rfl | hs
      · exact le_trans (le_max_right _ _) h1
      · exact h2 s hs
    · rcases h3 with h3 | ⟨s, hs, h3⟩
      · rcases max_choice a (f b) with hm | hm
        · exact Or.inl (by rw [List.foldl_cons, h3, hm])
        · exact Or.inr ⟨b, List.mem_cons_self _ _, by rw [List.foldl_cons, h3, hm]⟩
      · exact Or.inr ⟨s, List.mem_cons_of_mem _ hs, h3⟩

/-- C7: `union` of a non-empty list is the component-wise bounding box
(a lower bound on all `xmin`/`ymin`, an upper bound on all `xmax`/`ymax`,
each attained by some input region), and `union` of the empty list fails. -/
theorem union_is_bounding_box :
    union [] = none ∧
    ∀ (r : Region) (rs : List Region), ∃ u, union (r :: rs) = some u ∧
      (∀ s ∈ r :: rs, u.xmin ≤ s.xmin ∧ u.ymin ≤ s.ymin ∧
        s.xmax ≤ u.xmax ∧ s.ymax ≤ u.ymax) ∧
      (∃ s ∈ r :: rs, u.xmin = s.xmin) ∧
      (∃ s ∈ r :: rs, u.ymin = s.ymin) ∧
      (∃ s ∈ r :: rs, u.xmax = s.xmax) ∧
      (∃ s ∈ r :: rs, u.ymax = s.ymax) := by
  refine ⟨rfl, fun r rs => ⟨_, rfl, ?_, ?_, ?_, ?_, ?_⟩⟩
  · intro s hs
    rcases List.mem_cons.mp hs with rfl | hs
    · exact ⟨(foldl_min_spec Region.xmin s.xmin rs).1,
        (foldl_min_spec Region.ymin s.ymin rs).1,
        (foldl_max_spec Region.xmax s.xmax rs).1,
        (foldl_max_spec Region.ymax s.ymax rs).1⟩
    · exact ⟨(foldl_min_spec Region.xmin r.xmin rs).2.1 s hs,
        (foldl_min_spec Region.ymin r.ymin rs).2.1 s hs,
        (foldl_max_spec Region.xmax r.xmax rs).2.1 s hs,
        (foldl_max_spec Region.ymax r.ymax rs).2.1 s hs⟩
  · rcases (foldl_min_spec Region.xmin r.xmin rs).2.2 with h | ⟨s, hs, h⟩
    · exact ⟨r, List.mem_cons_self _ _, h⟩
    · exact ⟨s, List.mem_cons_of_mem _ hs, h⟩
  · rcases (foldl_min_spec Region.ymin r.ymin rs).2.2 with h | ⟨s, hs, h⟩
    · exact ⟨r, List.mem_cons_self _ _, h⟩
    · exact ⟨s, List.mem_cons_of_mem _ hs, h⟩
  · rcases (foldl_max_spec Region.xmax r.xmax rs).2.2 with h | ⟨s, hs, h⟩
    · exact ⟨r, List.mem_cons_self _ _, h⟩
    · exact ⟨s, List.mem_cons_of_mem _ hs, h⟩
  · rcases (foldl_max_spec Region.ymax r.ymax rs).2.2 with h | ⟨s, hs, h⟩
    · exact ⟨r, List.mem_cons_self _ _, h⟩
    · exact ⟨s, List.mem_cons_of_mem _ hs, h⟩

/-- Witness for C7 at two concrete regions. -/
theorem union_is_bounding_box_witness :
    ∃ u, union [⟨0, 0, 1, 1⟩, ⟨-1, 2, 3, 0⟩] = some u ∧
      (∀ s ∈ ([⟨0, 0, 1, 1⟩, ⟨-1, 2, 3, 0⟩] : List Region),
        u.xmin ≤ s.xmin ∧ u.ymin ≤ s.ymin ∧
        s.xmax ≤ u.xmax ∧ s.ymax ≤ u.ymax) ∧
      (∃ s ∈ ([⟨0, 0, 1, 1⟩, ⟨-1, 2, 3, 0⟩] : List Region), u.xmin = s.xmin) ∧
      (∃ s ∈ ([⟨0, 0, 1, 1⟩, ⟨-1, 2, 3, 0⟩] : List Region), u.ymin = s.ymin) ∧
      (∃ s ∈ ([⟨0, 0, 1, 1⟩, ⟨-1, 2, 3, 0⟩] : List Region), u.xmax = s.xmax) ∧
      (∃ s ∈ ([⟨0, 0, 1, 1⟩, ⟨-1, 2, 3, 0⟩] : List Region), u.ymax = s.ymax) :=
  union_is_bounding_box.2 ⟨0, 0, 1, 1⟩ [⟨-1, 2, 3, 0⟩]

/-- C8: cropping a region that lies entirely outside the bounding region
(separated along the x axis or along the y axis) yields an empty region. -/
theorem crop_outside_empty (r b : Region)
    (h : r.xmax ≤ b.xmin ∨ b.xmax ≤ r.xmin ∨ r.ymax ≤ b.ymin ∨ b.ymax ≤ r.ymin) :
    empty (crop r b) = true := by
  unfold empty crop
  simp only [Bool.or_eq_true, decide_eq_true_eq, ge_iff_le]
  rcases h with h | h | h | h
  · left
    rw [max_eq_left h]
    exact min_le_min (le_refl _) (le_max_left _ _)
  · left
    calc min b.xmax (max b.xmin r.xmax) ≤ b.xmax := min_le_left _ _
      _ = min b.xmax (max b.xmin r.xmin) :=
        (min_eq_left (le_trans h (le_max_right _ _))).symm
  · right
    rw [max_eq_left h]
    exact min_le_min (le_refl _) (le_max_left _ _)
  · right
    calc min b.ymax (max b.ymin r.ymax) ≤ b.ymax := min_le_left _ _
      _ = min b.ymax (max b.ymin r.ymin) :=
        (min_eq_left (le_trans h (le_max_right _ _))).symm

/-- Witness for C8: a region to the right of the bounding region crops to an
empty region. -/
theorem crop_outside_empty_witness :
    empty (crop ⟨2, 0, 3, 1⟩ ⟨0, 0, 1, 1⟩) = true :=
  crop_outside_empty ⟨2, 0, 3, 1⟩ ⟨0, 0, 1, 1⟩ (Or.inr (Or.inl (by norm_num)))

/-- The per-instance state of `WrapperDisk` relevant to id assignment:
its `current_object_id` counter (`__init__` sets it to 0). -/
structure WrapperDisk where
  current_object_id : ℕ

/-- A freshly constructed `WrapperDisk`. -/
def WrapperDisk.init : WrapperDisk := ⟨0⟩

/-- The id-issuing loop of `WrapperDisk.get_function_and_kwargs`:
`for _ in range(nout): id_list.append(self.current_object_id);
self.current_object_id += 1`. -/
def issueIds (current : ℕ) : ℕ → List ℕ × ℕ
  | 0 => ([], current)
  | n + 1 =>
    let rest := issueIds (current + 1) n
    (current :: rest.1, rest.2)

/-- Embedding of `WrapperDisk.get_function_and_kwargs`, reduced to its effect
on the id counter: the `id_list` it builds and the updated wrapper state. -/
def get_function_and_kwargs (w : WrapperDisk) (nout : ℕ) :
    List ℕ × WrapperDisk :=
  let r := issueIds w.current_object_id nout
  (r.1, ⟨r.2⟩)

/-- A sequence of `get_function_and_kwargs` calls on one instance, collecting
every issued id in order. -/
def runCalls (w : WrapperDisk) : List ℕ → List ℕ × WrapperDisk
  | [] => ([], w)
  | n :: ns =>
    let r := get_function_and_kwargs w n
    let rest := runCalls r.2 ns
    (r.1 ++ rest.1, rest.2)

lemma issueIds_eq (c n : ℕ) : issueIds c n = (List.range' c n, c + n) := by
  induction n generalizing c with
  | zero => rfl
  | succ n ih =>
    simp only [issueIds, ih, List.range'_succ, Prod.mk.injEq, List.cons.injEq,
      true_and]
    omega

lemma runCalls_eq (c : ℕ) (ns : List ℕ) :
    runCalls ⟨c⟩ ns = (List.range' c ns.sum, ⟨c + ns.sum⟩) := by
  induction ns generalizing c with
  | nil => rfl
  | cons n ns ih =>
    have hg : get_function_and_kwargs ⟨c⟩ n = (List.range' c n, ⟨c + n⟩) := by
      unfold get_function_and_kwargs
      rw [issueIds_eq]
    have happ := List.range'_append c n ns.sum 1
    simp only [one_mul] at happ
    simp only [runCalls, hg, ih (c + n), List.sum_cons, Prod.mk.injEq]
    refine ⟨happ.trans (by rw [Nat.add_comm]), ?_⟩
    rw [Nat.add_assoc]

/-- C9: starting from a fresh wrapper, every `get_function_and_kwargs` call
with `nout` outputs issues exactly `nout` ids, the ids issued across any call
sequence are `0, 1, …, total−1` (strictly increasing, pairwise distinct), and
the counter always equals the number of ids issued so far. -/
theorem wrapper_ids_unique (nouts : List ℕ) :
    (runCalls WrapperDisk.init nouts).1 = List.range nouts.sum ∧
    (runCalls WrapperDisk.init nouts).2.current_object_id = nouts.sum ∧
    (runCalls WrapperDisk.init nouts).1.length = nouts.sum ∧
    List.Pairwise (· < ·) (runCalls WrapperDisk.init nouts).1 ∧
    ∀ (w : WrapperDisk) (nout : ℕ),
      (get_function_and_kwargs w nout).1.length = nout ∧
      (get_function_and_kwargs w nout).2.current_object_id =
        w.current_object_id + nout := by
  have h := runCalls_eq 0 nouts
  rw [show WrapperDisk.init = (⟨0⟩ : WrapperDisk) from rfl, h]
  refine ⟨by rw [List.range_eq_range'], by simp, by simp [List.length_range'],
    ?_, ?_⟩
  · rw [← List.range_eq_range']
    exact List.pairwise_lt_range _
  · intro w nout
    unfold get_function_and_kwargs
    rw [issueIds_eq]
    simp [List.length_range']

/-- A simplex of the Delaunay triangulation: the three flat positions (into
the raveled sampling grid) of its vertices (`tri.simplices[k]`). -/
abbrev Tri := ℕ × ℕ × ℕ

/-- Python/numpy integer indexing into a 1-D array: non-negative indices from
the front, negative indices from the back. -/
def pyGet {α : Type} (l : List α) (i : ℤ) (d : α) : α :=
  if 0 ≤ i then l.getD i.toNat d else l.getD (l.length - (-i).toNat) d

/-- Value at flat position `pos` (row-major ravel of an `(rows, cols)` grid)
of the edge mask number `k`: the masks set `edges[0, :, 0] = 1`,
`edges[1, -1, :] = 1`, `edges[2, :, -1] = 1`, `edges[3, 0, :] = 1`
(first column, last row, last column, first row). -/
def edgeFlag (rows cols : ℕ) (k : ℕ) (pos : ℕ) : Bool :=
  match k with
  | 0 => pos % cols == 0
  | 1 => pos / cols == rows - 1
  | 2 => pos % cols == cols - 1
  | _ => pos / cols == 0

/-- One entry of `np.sum(edges_ravel[tri.simplices], axis=1) == 3`: the mask
values of the three vertices of a simplex sum to 3 for edge `k`. -/
def edgeSimplexFlag (rows cols k : ℕ) (tr : Tri) : Bool :=
  ((if edgeFlag rows cols k tr.1 then 1 else 0) +
   (if edgeFlag rows cols k tr.2.1 then 1 else 0) +
   (if edgeFlag rows cols k tr.2.2 then 1 else 0) : ℕ) == 3

/-- One loop iteration of `filter_simplices_on_the_edges`:
`simplices[edges_simplices[simplices]] = -1` for edge `k`, with numpy's
negative indexing for the entries already equal to −1. -/
def filterStep (rows cols : ℕ) (simplices : List Tri) (k : ℕ)
    (s : List ℤ) : List ℤ :=
  let flags := simplices.map (edgeSimplexFlag rows cols k)
  s.map (fun sp => if pyGet flags sp false then -1 else sp)

/-- Embedding of `tiling.filter_simplices_on_the_edges(original_grid_shape,
tri, simplices)`: the four edge passes applied in order to the selected
simplices array. -/
def filter_simplices_on_the_edges (original_grid_shape : ℕ × ℕ)
    (simplices : List Tri) (s : List ℤ) : List ℤ :=
  filterStep original_grid_shape.1 original_grid_shape.2 simplices 3
    (filterStep original_grid_shape.1 original_grid_shape.2 simplices 2
      (filterStep original_grid_shape.1 original_grid_shape.2 simplices 1
        (filterStep original_grid_shape.1 original_grid_shape.2 simplices 0 s)))

/-- Modelled from the spec's words for comparison: a flat position lies on the
outer boundary of the sampling grid (first row, last row, first column or
last column). -/
def onOuterBoundary (rows cols pos : ℕ) : Bool :=
  decide (pos / cols = 0) || decide (pos / cols = rows - 1) ||
  decide (pos % cols = 0) || decide (pos % cols = cols - 1)

/-- All three vertices of a simplex lie on one common single edge of the
sampling grid. -/
def onSingleEdge (rows cols : ℕ) (tr : Tri) : Bool :=
  edgeSimplexFlag rows cols 0 tr || edgeSimplexFlag rows cols 1 tr ||
  edgeSimplexFlag rows cols 2 tr || edgeSimplexFlag rows cols 3 tr

/-- C3 counterexample: in a 3×3 sampling grid, the simplex with flat vertex
positions 0, 2 and 6 has all three vertices on the outer boundary, yet
`filter_simplices_on_the_edges` leaves its selected occurrence unchanged
(the claim requires it to become −1), because no single edge contains all
three vertices. -/
theorem filter_simplices_counterexample :
    onOuterBoundary 3 3 0 = true ∧ onOuterBoundary 3 3 2 = true ∧
    onOuterBoundary 3 3 6 = true ∧
    filter_simplices_on_the_edges (3, 3) [(0, 2, 6)] [0] = [0] :=
  ⟨rfl, rfl, rfl, rfl⟩

lemma pyGet_neg_one_fix {l : List Bool} :
    (if pyGet l (-1) false then (-1 : ℤ) else -1) = -1 :=
  ite_self _

lemma pyGet_map_nonneg {α β : Type} (l : List α) (f : α → β) (i : ℤ) (d : β)
    (d' : α) (h0 : 0 ≤ i) (hl : i.toNat < l.length) :
    pyGet (l.map f) i d = f (l.getD i.toNat d') := by
  unfold pyGet
  rw [if_pos h0, List.getD_eq_getElem _ _ (by simpa using hl),
    List.getD_eq_getElem _ _ hl, List.getElem_map]

lemma filterChain_elem (rows cols : ℕ) (simplices : List Tri) (sp : ℤ)
    (h : sp = -1 ∨ (0 ≤ sp ∧ sp.toNat < simplices.length)) :
    (fun v => if pyGet (simplices.map (edgeSimplexFlag rows cols 3)) v false
      then (-1 : ℤ) else v)
    ((fun v => if pyGet (simplices.map (edgeSimplexFlag rows cols 2)) v false
      then (-1 : ℤ) else v)
    ((fun v => if pyGet (simplices.map (edgeSimplexFlag rows cols 1)) v false
      then (-1 : ℤ) else v)
    ((fun v => if pyGet (simplices.map (edgeSimplexFlag rows cols 0)) v false
      then (-1 : ℤ) else v) sp))) =
    (if sp = -1 then -1
     else if onSingleEdge rows cols (simplices.getD sp.toNat (0, 0, 0))
       then -1 else sp) := by
  simp only []
  rcases h with rfl | ⟨h0, hl⟩
  · rw [pyGet_neg_one_fix, pyGet_neg_one_fix, pyGet_neg_one_fix,
      pyGet_neg_one_fix, if_pos rfl]
  · have hne : sp ≠ -1 := by omega
    have hp : ∀ k, pyGet (simplices.map (edgeSimplexFlag rows cols k)) sp false
        = edgeSimplexFlag rows cols k (simplices.getD sp.toNat (0, 0, 0)) :=
      fun k => pyGet_map_nonneg simplices _ sp false (0, 0, 0) h0 hl
    rw [if_neg hne, hp 0]
    by_cases h0f : edgeSimplexFlag rows cols 0
        (simplices.getD sp.toNat (0, 0, 0)) = true
    · rw [if_pos h0f, pyGet_neg_one_fix, pyGet_neg_one_fix, pyGet_neg_one_fix,
        if_pos (show onSingleEdge rows cols
          (simplices.getD sp.toNat (0, 0, 0)) = true by
            simp only [onSingleEdge, h0f, Bool.true_or, Bool.or_true])]
    · rw [if_neg h0f, hp 1]
      by_cases h1f : edgeSimplexFlag rows cols 1
          (simplices.getD sp.toNat (0, 0, 0)) = true
      · rw [if_pos h1f, pyGet_neg_one_fix, pyGet_neg_one_fix,
          if_pos (show onSingleEdge rows cols
            (simplices.getD sp.toNat (0, 0, 0)) = true by
              simp only [onSingleEdge, h1f, Bool.true_or, Bool.or_true])]
      · rw [if_neg h1f, hp 2]
        by_cases h2f : edgeSimplexFlag rows cols 2
            (simplices.getD sp.toNat (0, 0, 0)) = true
        · rw [if_pos h2f, pyGet_neg_one_fix,
            if_pos (show onSingleEdge rows cols
              (simplices.getD sp.toNat (0, 0, 0)) = true by
                simp only [onSingleEdge, h2f, Bool.true_or, Bool.or_true])]
        · rw [if_neg h2f, hp 3]
          by_cases h3f : edgeSimplexFlag rows cols 3
              (simplices.getD sp.toNat (0, 0, 0)) = true
          · rw [if_pos h3f,
              if_pos (show onSingleEdge rows cols
                (simplices.getD sp.toNat (0, 0, 0)) = true by
                  simp only [onSingleEdge, h3f, Bool.true_or, Bool.or_true])]
          · rw [if_neg h3f,
              if_neg (show ¬onSingleEdge rows cols
                (simplices.getD sp.toNat (0, 0, 0)) = true by
                  simp only [Bool.not_eq_true] at h0f h1f h2f h3f
                  simp only [onSingleEdge, h0f, h1f, h2f, h3f, Bool.or_self]
                  exact Bool.false_ne_true)]

/-- C3 amended: `filter_simplices_on_the_edges` sets an occurrence to −1
exactly when its simplex has all three vertices on one common single edge of
the sampling grid (entries already −1 stay −1); a simplex whose vertices are
on the boundary but not all on the same edge, or with an interior vertex, is
left unchanged. Also, the per-edge test means: all three vertices on that
edge. -/
theorem filter_simplices_single_edge (rows cols : ℕ) (simplices : List Tri)
    (s : List ℤ)
    (h : ∀ sp ∈ s, sp = -1 ∨ (0 ≤ sp ∧ sp.toNat < simplices.length)) :
    filter_simplices_on_the_edges (rows, cols) simplices s =
      s.map (fun sp =>
        if sp = -1 then -1
        else if onSingleEdge rows cols (simplices.getD sp.toNat (0, 0, 0))
          then -1 else sp) ∧
    ∀ k tr, edgeSimplexFlag rows cols k tr =
      (edgeFlag rows cols k tr.1 && edgeFlag rows cols k tr.2.1 &&
       edgeFlag rows cols k tr.2.2) := by
  constructor
  · unfold filter_simplices_on_the_edges filterStep
    simp only [List.map_map]
    refine List.map_congr_left ?_
    intro sp hsp
    exact filterChain_elem rows cols simplices sp (h sp hsp)
  · intro k tr
    unfold edgeSimplexFlag
    cases hf1 : edgeFlag rows cols k tr.1 <;>
      cases hf2 : edgeFlag rows cols k tr.2.1 <;>
        cases hf3 : edgeFlag rows cols k tr.2.2 <;> simp

/-- Witness for C3's amended statement on a concrete grid: an entry −1 stays
−1, an all-boundary-but-multi-edge simplex stays selected, and a single-edge
simplex is discarded. -/
theorem filter_simplices_single_edge_witness :
    filter_simplices_on_the_edges (3, 3) [(0, 2, 6), (0, 1, 2)] [-1, 0, 1] =
      [-1, 0, -1] :=
  ((filter_simplices_single_edge 3 3 [(0, 2, 6), (0, 1, 2)] [-1, 0, 1]
    (by decide)).1).trans rfl

/-- Component-wise minimum of two points (`np.minimum`). -/
def pointMin (p q : Point) : Point := (min p.1 q.1, min p.2 q.2)

/-- Component-wise maximum of two points (`np.maximum`). -/
def pointMax (p q : Point) : Point := (max p.1 q.1, max p.2 q.2)

/-- Component-wise minimum over the three vertex positions of a simplex in
the flattened sampling grid (`np.min(..., axis=2)` of
`epipolar_regions_grid_flat[tri.simplices[s]]`). -/
def triMin (flat : ℕ → Point) (tr : Tri) : Point :=
  pointMin (flat tr.1) (pointMin (flat tr.2.1) (flat tr.2.2))

/-- Component-wise maximum over the three vertex positions of a simplex. -/
def triMax (flat : ℕ → Point) (tr : Tri) : Point :=
  pointMax (flat tr.1) (pointMax (flat tr.2.1) (flat tr.2.2))

/-- The two extreme points one disparity bound contributes for one query
point, as computed by `terrain_grid_to_epipolar`: the simplex min/max are
computed for `tri.simplices[s]` with numpy's negative indexing even when
`s = -1`, then `np.where(stack((s, s)) != -1, simplex_extreme, nn)` selects
between them and the nearest-neighbour sample per component. -/
def boundSelect (flat : ℕ → Point) (simplices : List Tri) (s : ℤ) (nn : ℕ) :
    Point × Point :=
  let tr := pyGet simplices s (0, 0, 0)
  let pmin := triMin flat tr
  let pmax := triMax flat tr
  let selMin : Point :=
    ((if s ≠ -1 then pmin.1 else (flat nn).1),
     (if s ≠ -1 then pmin.2 else (flat nn).2))
  let selMax : Point :=
    ((if s ≠ -1 then pmax.1 else (flat nn).1),
     (if s ≠ -1 then pmax.2 else (flat nn).2))
  (selMin, selMax)

/-- Per-query-point tail of `terrain_grid_to_epipolar`: the four extreme
points (min-bound min, min-bound max, max-bound min, max-bound max) are
stacked and reduced by `np.min`/`np.max` over the stack axis. -/
def terrain_point_to_epipolar (flat : ℕ → Point)
    (simpMin simpMax : List Tri) (sMin sMax : ℤ) (nnMin nnMax : ℕ) :
    Point × Point :=
  let bmin := boundSelect flat simpMin sMin nnMin
  let bmax := boundSelect flat simpMax sMax nnMax
  (pointMin (pointMin (pointMin bmin.1 bmin.2) bmax.1) bmax.2,
   pointMax (pointMax (pointMax bmin.1 bmin.2) bmax.1) bmax.2)

/-- Embedding of `tiling.terrain_grid_to_epipolar` downstream of the external
scipy searches: `sMinRaw`/`sMaxRaw` are the raw `tsearch` outputs and
`nnMin`/`nnMax` the k-d-tree nearest indices; the function first runs
`filter_simplices_on_the_edges` on both simplex arrays (with the shape of the
epipolar regions grid), then combines simplex extremes with
nearest-neighbour fallback into `points_min`/`points_max` per query point. -/
def terrain_grid_to_epipolar (flat : ℕ → Point) (shape : ℕ × ℕ)
    (simpMin simpMax : List Tri) (sMinRaw sMaxRaw : List ℤ)
    (nnMin nnMax : List ℕ) : List (Point × Point) :=
  let sMin := filter_simplices_on_the_edges shape simpMin sMinRaw
  let sMax := filter_simplices_on_the_edges shape simpMax sMaxRaw
  (List.range sMinRaw.length).map (fun k =>
    terrain_point_to_epipolar flat simpMin simpMax
      (sMin.getD k 0) (sMax.getD k 0) (nnMin.getD k 0) (nnMax.getD k 0))

/-- The per-bound extreme points as the spec describes them: the bounding
min/max over the simplex vertices when a valid (non-discarded) simplex was
found, otherwise the single nearest sample point twice. -/
def boundExtremes (flat : ℕ → Point) (simplices : List Tri) (s : ℤ)
    (nn : ℕ) : Point × Point :=
  if s ≠ -1 then
    (triMin flat (simplices.getD s.toNat (0, 0, 0)),
     triMax flat (simplices.getD s.toNat (0, 0, 0)))
  else (flat nn, flat nn)

lemma boundSelect_eq_boundExtremes (flat : ℕ → Point) (simplices : List Tri)
    (s : ℤ) (nn : ℕ) (h : s = -1 ∨ (0 ≤ s ∧ s.toNat < simplices.length)) :
    boundSelect flat simplices s nn = boundExtremes flat simplices s nn := by
  unfold boundSelect boundExtremes
  rcases h with rfl | ⟨h0, hl⟩
  · simp
  · have hne : s ≠ -1 := by omega
    simp only [ne_eq, hne, not_false_eq_true, if_true, if_pos]
    rw [show pyGet simplices s (0, 0, 0) = simplices.getD s.toNat (0, 0, 0) by
      unfold pyGet
      rw [if_pos h0]]

/-- C2: in `terrain_grid_to_epipolar`, for every query point and each bound
independently, the extreme points are the component-wise min and max over the
(post-filter) simplex's vertex positions when a valid non-discarded simplex
was found, and both degenerate to that bound's nearest sample point
otherwise; the returned `points_min`/`points_max` are the element-wise min
and max across the four resulting extreme points. -/
theorem terrain_grid_to_epipolar_pointwise (flat : ℕ → Point)
    (shape : ℕ × ℕ) (simpMin simpMax : List Tri) (sMinRaw sMaxRaw : List ℤ)
    (nnMin nnMax : List ℕ) (k : ℕ) (hk : k < sMinRaw.length)
    (hmin : (filter_simplices_on_the_edges shape simpMin sMinRaw).getD k 0
        = -1 ∨
      (0 ≤ (filter_simplices_on_the_edges shape simpMin sMinRaw).getD k 0 ∧
       ((filter_simplices_on_the_edges shape simpMin sMinRaw).getD k 0).toNat
         < simpMin.length))
    (hmax : (filter_simplices_on_the_edges shape simpMax sMaxRaw).getD k 0
        = -1 ∨
      (0 ≤ (filter_simplices_on_the_edges shape simpMax sMaxRaw).getD k 0 ∧
       ((filter_simplices_on_the_edges shape simpMax sMaxRaw).getD k 0).toNat
         < simpMax.length)) :
    (terrain_grid_to_epipolar flat shape simpMin simpMax sMinRaw sMaxRaw
        nnMin nnMax).getD k ((0, 0), (0, 0)) =
      (pointMin
        (pointMin
          (pointMin
            (boundExtremes flat simpMin
              ((filter_simplices_on_the_edges shape simpMin sMinRaw).getD k 0)
              (nnMin.getD k 0)).1
            (boundExtremes flat simpMin
              ((filter_simplices_on_the_edges shape simpMin sMinRaw).getD k 0)
              (nnMin.getD k 0)).2)
          (boundExtremes flat simpMax
            ((filter_simplices_on_the_edges shape simpMax sMaxRaw).getD k 0)
            (nnMax.getD k 0)).1)
        (boundExtremes flat simpMax
          ((filter_simplices_on_the_edges shape simpMax sMaxRaw).getD k 0)
          (nnMax.getD k 0)).2,
       pointMax
        (pointMax
          (pointMax
            (boundExtremes flat simpMin
              ((filter_simplices_on_the_edges shape simpMin sMinRaw).getD k 0)
              (nnMin.getD k 0)).1
            (boundExtremes flat simpMin
              ((filter_simplices_on_the_edges shape simpMin sMinRaw).getD k 0)
              (nnMin.getD k 0)).2)
          (boundExtremes flat simpMax
            ((filter_simplices_on_the_edges shape simpMax sMaxRaw).getD k 0)
            (nnMax.getD k 0)).1)
        (boundExtremes flat simpMax
          ((filter_simplices_on_the_edges shape simpMax sMaxRaw).getD k 0)
          (nnMax.getD k 0)).2) := by
  unfold terrain_grid_to_epipolar
  rw [List.getD_eq_getElem _ _ (by simpa using hk), List.getElem_map,
    List.getElem_range]
  unfold terrain_point_to_epipolar
  rw [boundSelect_eq_boundExtremes flat simpMin _ _ hmin,
    boundSelect_eq_boundExtremes flat simpMax _ _ hmax]

/-- Witness for C2 on a concrete configuration: the min bound finds simplex 0
of a 3×3 grid, the max bound falls outside the triangulation. -/
theorem terrain_grid_to_epipolar_pointwise_witness :
    (terrain_grid_to_epipolar (fun n => ((n : ℚ), (n : ℚ))) (3, 3)
        [(0, 1, 4)] [(4, 5, 7)] [0] [-1] [2] [8]).getD 0 ((0, 0), (0, 0)) =
      (pointMin
        (pointMin
          (pointMin
            (boundExtremes (fun n => ((n : ℚ), (n : ℚ))) [(0, 1, 4)]
              ((filter_simplices_on_the_edges (3, 3) [(0, 1, 4)] [0]).getD 0 0)
              ([2].getD 0 0)).1
            (boundExtremes (fun n => ((n : ℚ), (n : ℚ))) [(0, 1, 4)]
              ((filter_simplices_on_the_edges (3, 3) [(0, 1, 4)] [0]).getD 0 0)
              ([2].getD 0 0)).2)
          (boundExtremes (fun n => ((n : ℚ), (n : ℚ))) [(4, 5, 7)]
            ((filter_simplices_on_the_edges (3, 3) [(4, 5, 7)] [-1]).getD 0 0)
            ([8].getD 0 0)).1)
        (boundExtremes (fun n => ((n : ℚ), (n : ℚ))) [(4, 5, 7)]
          ((filter_simplices_on_the_edges (3, 3) [(4, 5, 7)] [-1]).getD 0 0)
          ([8].getD 0 0)).2,
       pointMax
        (pointMax
          (pointMax
            (boundExtremes (fun n => ((n : ℚ), (n : ℚ))) [(0, 1, 4)]
              ((filter_simplices_on_the_edges (3, 3) [(0, 1, 4)] [0]).getD 0 0)
              ([2].getD 0 0)).1
            (boundExtremes (fun n => ((n : ℚ), (n : ℚ))) [(0, 1, 4)]
              ((filter_simplices_on_the_edges (3, 3) [(0, 1, 4)] [0]).getD 0 0)
              ([2].getD 0 0)).2)
          (boundExtremes (fun n => ((n : ℚ), (n : ℚ))) [(4, 5, 7)]
            ((filter_simplices_on_the_edges (3, 3) [(4, 5, 7)] [-1]).getD 0 0)
            ([8].getD 0 0)).1)
        (boundExtremes (fun n => ((n : ℚ), (n : ℚ))) [(4, 5, 7)]
          ((filter_simplices_on_the_edges (3, 3) [(4, 5, 7)] [-1]).getD 0 0)
          ([8].getD 0 0)).2) :=
  terrain_grid_to_epipolar_pointwise (fun n => ((n : ℚ), (n : ℚ))) (3, 3)
    [(0, 1, 4)] [(4, 5, 7)] [0] [-1] [2] [8] 0 (by decide)
    (Or.inr (by decide)) (Or.inl (by decide))

/-- The data `get_corresponding_tiles_row_col` reads for one stereo pair:
the two point-cloud `CarsDataset`s (abstracted to their per-tile contents of
type `α` and the `(rows, cols)` of their `tiling_grid` shape), the
`epipolar_points_min`/`epipolar_points_max` grids, and the pair attributes
`largest_epipolar_region` and `opt_epipolar_tile_size`. -/
structure PairData (α : Type) where
  pcLeft : ℕ → ℕ → α
  pcRight : ℕ → ℕ → α
  epipolar_points_min : ℕ → ℕ → Point
  epipolar_points_max : ℕ → ℕ → Point
  largest_epipolar_region : Region
  opt_epipolar_tile_size : ℚ
  grid_rows : ℕ
  grid_cols : ℕ

/-- `tile_min`: the nested `np.minimum` over the four cell corners of both
`epipolar_points_min` and `epipolar_points_max`. -/
def pairTileMin {α : Type} (pd : PairData α) (j i : ℕ) : Point :=
  pointMin
    (pointMin
      (pointMin (pd.epipolar_points_min j i) (pd.epipolar_points_min (j + 1) i))
      (pointMin (pd.epipolar_points_min (j + 1) (i + 1))
        (pd.epipolar_points_min j (i + 1))))
    (pointMin
      (pointMin (pd.epipolar_points_max j i) (pd.epipolar_points_max (j + 1) i))
      (pointMin (pd.epipolar_points_max (j + 1) (i + 1))
        (pd.epipolar_points_max j (i + 1))))

/-- `tile_max`: the nested `np.maximum` over the same eight corner points. -/
def pairTileMax {α : Type} (pd : PairData α) (j i : ℕ) : Point :=
  pointMax
    (pointMax
      (pointMax (pd.epipolar_points_min j i) (pd.epipolar_points_min (j + 1) i))
      (pointMax (pd.epipolar_points_min (j + 1) (i + 1))
        (pd.epipolar_points_min j (i + 1))))
    (pointMax
      (pointMax (pd.epipolar_points_max j i) (pd.epipolar_points_max (j + 1) i))
      (pointMax (pd.epipolar_points_max (j + 1) (i + 1))
        (pd.epipolar_points_max j (i + 1))))

/-- The pair's epipolar bounding region for terrain cell `(j, i)`:
`[tile_min[0], tile_min[1], tile_max[0], tile_max[1]]` cropped to the pair's
`largest_epipolar_region`. -/
def pairEpipolarRegion {α : Type} (pd : PairData α) (j i : ℕ) : Region :=
  crop
    ⟨(pairTileMin pd j i).1, (pairTileMin pd j i).2,
     (pairTileMax pd j i).1, (pairTileMax pd j i).2⟩
    pd.largest_epipolar_region

/-- The bounds check `0 <= id_x < epi_grid_shape[1] and
0 <= id_y < epi_grid_shape[0]` on a candidate tile. -/
def inGrid {α : Type} (pd : PairData α) (tl : Tile) : Bool :=
  decide (0 ≤ tl.idx) && decide (tl.idx < (pd.grid_cols : ℤ)) &&
  decide (0 ≤ tl.idy) && decide (tl.idy < (pd.grid_rows : ℤ))

/-- The contribution of one stereo pair to the per-terrain-tile lists: nothing
when the cropped epipolar region is empty, otherwise (left tile, right tile,
`[id_y, id_x]`) for each in-bounds candidate of `list_tiles` — which is
called without a margin argument, so with its declared default `margin = 1`. -/
def pairContrib {α : Type} (pd : PairData α) (j i : ℕ) :
    List α × List α × List (ℤ × ℤ) :=
  let er := pairEpipolarRegion pd j i
  if empty er then ([], [], [])
  else
    let tiles := (list_tiles er pd.largest_epipolar_region
      pd.opt_epipolar_tile_size 1).filter (fun tl => inGrid pd tl)
    (tiles.map (fun tl => pd.pcLeft tl.idy.toNat tl.idx.toNat),
     tiles.map (fun tl => pd.pcRight tl.idy.toNat tl.idx.toNat),
     tiles.map (fun tl => (tl.idy, tl.idx)))

/-- The tuple returned by `get_corresponding_tiles_row_col`. -/
structure TilesResult (α : Type) where
  terrain_region : Region
  required_point_clouds_left : List α
  required_point_clouds_right : List α
  rank : ℕ
  list_indexes : List (ℤ × ℤ)
deriving DecidableEq

/-- Embedding of `tiling.get_corresponding_tiles_row_col`: terrain region
from the terrain grid corners `(j, i)` and `(j+1, i+1)`, the per-pair
contributions concatenated in pair order, and `rank = i*i + j*j`. -/
def get_corresponding_tiles_row_col {α : Type} (terrain_grid : ℕ → ℕ → Point)
    (row col : ℕ) (pairs : List (PairData α)) : TilesResult α :=
  let j := row
  let i := col
  { terrain_region :=
      ⟨(terrain_grid j i).1, (terrain_grid j i).2,
       (terrain_grid (j + 1) (i + 1)).1, (terrain_grid (j + 1) (i + 1)).2⟩
    required_point_clouds_left :=
      (pairs.map (fun pd => (pairContrib pd j i).1)).flatten
    required_point_clouds_right :=
      (pairs.map (fun pd => (pairContrib pd j i).2.1)).flatten
    rank := i * i + j * j
    list_indexes :=
      (pairs.map (fun pd => (pairContrib pd j i).2.2)).flatten }

lemma mem_pairContrib_indexes {α : Type} (pd : PairData α) (j i : ℕ)
    (p : ℤ × ℤ) :
    p ∈ (pairContrib pd j i).2.2 ↔
      (empty (pairEpipolarRegion pd j i) = false ∧
        ∃ tl ∈ list_tiles (pairEpipolarRegion pd j i)
          pd.largest_epipolar_region pd.opt_epipolar_tile_size 1,
          inGrid pd tl = true ∧ p = (tl.idy, tl.idx)) := by
  unfold pairContrib
  by_cases he : empty (pairEpipolarRegion pd j i) = true
  · simp [he]
  · simp only [Bool.not_eq_true] at he
    simp only [he, Bool.false_eq_true, if_false, List.mem_map,
      List.mem_filter, true_and]
    constructor
    · rintro ⟨tl, ⟨htl, hg⟩, rfl⟩
      exact ⟨tl, htl, hg, rfl⟩
    · rintro ⟨tl, htl, hg, rfl⟩
      exact ⟨tl, ⟨htl, hg⟩, rfl⟩

lemma mem_list_indexes {α : Type} (tg : ℕ → ℕ → Point) (row col : ℕ)
    (pairs : List (PairData α)) (p : ℤ × ℤ) :
    p ∈ (get_corresponding_tiles_row_col tg row col pairs).list_indexes ↔
      ∃ pd ∈ pairs,
        empty (pairEpipolarRegion pd row col) = false ∧
        ∃ tl ∈ list_tiles (pairEpipolarRegion pd row col)
          pd.largest_epipolar_region pd.opt_epipolar_tile_size 1,
          inGrid pd tl = true ∧ p = (tl.idy, tl.idx) := by
  unfold get_corresponding_tiles_row_col
  simp only [List.mem_flatten, List.mem_map]
  constructor
  · rintro ⟨l, ⟨pd, hpd, rfl⟩, hp⟩
    exact ⟨pd, hpd, (mem_pairContrib_indexes pd row col p).mp hp⟩
  · rintro ⟨pd, hpd, hcond⟩
    exact ⟨(pairContrib pd row col).2.2, ⟨pd, hpd, rfl⟩,
      (mem_pairContrib_indexes pd row col p).mpr hcond⟩

/-- C4: when the cropped epipolar bounding region is empty for every stereo
pair, `get_corresponding_tiles_row_col` returns the terrain region together
with empty left/right point-cloud lists and an empty index list (the terrain
tile is represented as an empty candidate set, no error). -/
theorem get_corresponding_all_empty {α : Type} (tg : ℕ → ℕ → Point)
    (row col : ℕ) (pairs : List (PairData α))
    (h : ∀ pd ∈ pairs, empty (pairEpipolarRegion pd row col) = true) :
    get_corresponding_tiles_row_col tg row col pairs =
      { terrain_region :=
          ⟨(tg row col).1, (tg row col).2,
           (tg (row + 1) (col + 1)).1, (tg (row + 1) (col + 1)).2⟩
        required_point_clouds_left := []
        required_point_clouds_right := []
        rank := col * col + row * row
        list_indexes := [] } := by
  have hc : ∀ pd ∈ pairs, pairContrib pd row col = ([], [], []) := by
    intro pd hpd
    unfold pairContrib
    rw [if_pos (h pd hpd)]
  unfold get_corresponding_tiles_row_col
  simp only [TilesResult.mk.injEq]
  refine ⟨trivial, ?_, ?_, trivial, ?_⟩ <;>
    · rw [List.flatten_eq_nil_iff]
      intro l hl
      rw [List.mem_map] at hl
      obtain ⟨pd, hpd, rfl⟩ := hl
      rw [hc pd hpd]

/-- Terrain grid used by the concrete `get_corresponding_tiles_row_col`
examples. -/
def tgC1 : ℕ → ℕ → Point := fun j i => ((i : ℚ), (j : ℚ))

/-- A stereo pair whose epipolar points all fall in `[0,5]²`, with bounding
region `[0,0,25,25]`, optimal tile size 10 and a 3×3 tiling grid. -/
def pdC1 : PairData (ℕ × ℕ) where
  pcLeft := fun r c => (r, c)
  pcRight := fun r c => (r, c)
  epipolar_points_min := fun _ _ => (0, 0)
  epipolar_points_max := fun _ _ => (5, 5)
  largest_epipolar_region := ⟨0, 0, 25, 25⟩
  opt_epipolar_tile_size := 10
  grid_rows := 3
  grid_cols := 3

/-- A stereo pair whose epipolar bounding region crops to an empty region
inside `[0,0,25,25]`. -/
def pdOutside : PairData (ℕ × ℕ) where
  pcLeft := fun r c => (r, c)
  pcRight := fun r c => (r, c)
  epipolar_points_min := fun _ _ => (30, 30)
  epipolar_points_max := fun _ _ => (40, 40)
  largest_epipolar_region := ⟨0, 0, 25, 25⟩
  opt_epipolar_tile_size := 10
  grid_rows := 3
  grid_cols := 3

lemma pairEpipolarRegion_pdC1 : pairEpipolarRegion pdC1 0 0 = ⟨0, 0, 5, 5⟩ :=
  rfl

/-- Witness for C4: a pair fully outside its largest epipolar region yields
the empty candidate set. -/
theorem get_corresponding_all_empty_witness :
    get_corresponding_tiles_row_col tgC1 0 0 [pdOutside] =
      { terrain_region :=
          ⟨(tgC1 0 0).1, (tgC1 0 0).2, (tgC1 1 1).1, (tgC1 1 1).2⟩
        required_point_clouds_left := []
        required_point_clouds_right := []
        rank := 0
        list_indexes := [] } :=
  get_corresponding_all_empty tgC1 0 0 [pdOutside]
    (by
      intro pd hpd
      rw [List.mem_singleton] at hpd
      subst hpd
      rfl)

lemma pdC1_mem_indexes :
    ((1 : ℤ), (1 : ℤ)) ∈
      (get_corresponding_tiles_row_col tgC1 0 0 [pdC1]).list_indexes := by
  refine (mem_list_indexes tgC1 0 0 [pdC1] (1, 1)).mpr
    ⟨pdC1, List.mem_singleton.mpr rfl, rfl, ?_⟩
  refine ⟨⟨1, 1, crop (tileBox 1 1 10) ⟨0, 0, 25, 25⟩⟩, ?_, rfl, rfl⟩
  rw [pairEpipolarRegion_pdC1, mem_list_tiles]
  refine ⟨?_, ?_, ?_, ?_, rfl, ?_⟩
  · show ⌊(0 : ℚ) / 10⌋ - 1 ≤ (1 : ℤ)
    norm_num
  · show (1 : ℤ) < ⌈(5 : ℚ) / 10⌉ + 1
    rw [show ⌈(5 : ℚ) / 10⌉ = 1 by rw [Int.ceil_eq_iff]; norm_num]
    norm_num
  · show ⌊(0 : ℚ) / 10⌋ - 1 ≤ (1 : ℤ)
    norm_num
  · show (1 : ℤ) < ⌈(5 : ℚ) / 10⌉ + 1
    rw [show ⌈(5 : ℚ) / 10⌉ = 1 by rw [Int.ceil_eq_iff]; norm_num]
    norm_num
  · show empty (crop (tileBox 1 1 10) ⟨0, 0, 25, 25⟩) = false
    rw [empty_eq_false_iff]
    unfold crop tileBox
    norm_num

/-- C1 counterexample: with one stereo pair whose epipolar bounding region for
terrain tile `(0,0)` is `[0,0,5,5]` and optimal tile size 10,
`get_corresponding_tiles_row_col` returns the candidate tile `(1,1)`, whose
box `[10,10,20,20]` does not intersect the bounding region: the margin ring
of `list_tiles`'s default `margin=1` is included, so the candidate set is not
exactly the intersecting tiles. -/
theorem get_corresponding_margin_counterexample :
    ((1 : ℤ), (1 : ℤ)) ∈
      (get_corresponding_tiles_row_col tgC1 0 0 [pdC1]).list_indexes ∧
    pairEpipolarRegion pdC1 0 0 = ⟨0, 0, 5, 5⟩ ∧
    ¬overlaps (tileBox 1 1 10) ⟨0, 0, 5, 5⟩ := by
  refine ⟨pdC1_mem_indexes, rfl, ?_⟩
  unfold overlaps tileBox
  intro h
  obtain ⟨h1, h2, h3, h4⟩ := h
  norm_num at h1

/-- C1 amended: `get_corresponding_tiles_row_col` calls `list_tiles` without
a margin argument, so with its declared default `margin = 1`; hence for every
terrain tile the candidate set contains every in-bounds tile with a non-empty
cropped box that intersects the pair's bounding region, and every returned
candidate index lies within the bounding region's tile-index window expanded
by one margin tile on each side. -/
theorem get_corresponding_margin_one {α : Type} (tg : ℕ → ℕ → Point)
    (row col : ℕ) (pairs : List (PairData α)) :
    (∀ pd ∈ pairs, ∀ ix iy : ℤ,
      0 < pd.opt_epipolar_tile_size →
      empty (pairEpipolarRegion pd row col) = false →
      overlaps (tileBox ix iy pd.opt_epipolar_tile_size)
        (pairEpipolarRegion pd row col) →
      empty (crop (tileBox ix iy pd.opt_epipolar_tile_size)
        pd.largest_epipolar_region) = false →
      0 ≤ ix → ix < (pd.grid_cols : ℤ) → 0 ≤ iy → iy < (pd.grid_rows : ℤ) →
      (iy, ix) ∈
        (get_corresponding_tiles_row_col tg row col pairs).list_indexes) ∧
    (∀ p ∈ (get_corresponding_tiles_row_col tg row col pairs).list_indexes,
      ∃ pd ∈ pairs,
        empty (pairEpipolarRegion pd row col) = false ∧
        ⌊(pairEpipolarRegion pd row col).xmin /
          pd.opt_epipolar_tile_size⌋ - 1 ≤ p.2 ∧
        p.2 < ⌈(pairEpipolarRegion pd row col).xmax /
          pd.opt_epipolar_tile_size⌉ + 1 ∧
        ⌊(pairEpipolarRegion pd row col).ymin /
          pd.opt_epipolar_tile_size⌋ - 1 ≤ p.1 ∧
        p.1 < ⌈(pairEpipolarRegion pd row col).ymax /
          pd.opt_epipolar_tile_size⌉ + 1) := by
  constructor
  · intro pd hpd ix iy ht hne hov hcne hx0 hxc hy0 hyr
    refine (mem_list_indexes tg row col pairs (iy, ix)).mpr
      ⟨pd, hpd, hne,
       ⟨ix, iy, crop (tileBox ix iy pd.opt_epipolar_tile_size)
         pd.largest_epipolar_region⟩, ?_, ?_, rfl⟩
    · rw [mem_list_tiles]
      dsimp only
      obtain ⟨o1, o2, o3, o4⟩ := hov
      have hfx := (floor_div_le_iff ht).mpr o2
      have hcx := (lt_ceil_div_iff ht).mpr o1
      have hfy := (floor_div_le_iff ht).mpr o4
      have hcy := (lt_ceil_div_iff ht).mpr o3
      exact ⟨by omega, by omega, by omega, by omega, rfl, hcne⟩
    · unfold inGrid
      simp only [Bool.and_eq_true, decide_eq_true_eq]
      exact ⟨⟨⟨hx0, hxc⟩, hy0⟩, hyr⟩
  · intro p hp
    obtain ⟨pd, hpd, hne, tl, htl, _, rfl⟩ :=
      (mem_list_indexes tg row col pairs p).mp hp
    rw [mem_list_tiles] at htl
    obtain ⟨a1, a2, a3, a4, _, _⟩ := htl
    exact ⟨pd, hpd, hne, a1, a2, a3, a4⟩

/-- Witness for C1's amended statement: the intersecting tile `(0,0)` is in
the candidate set. -/
theorem get_corresponding_margin_one_witness :
    ((0 : ℤ), (0 : ℤ)) ∈
      (get_corresponding_tiles_row_col tgC1 0 0 [pdC1]).list_indexes :=
  by
  refine (get_corresponding_margin_one tgC1 0 0 [pdC1]).1 pdC1
    (List.mem_singleton.mpr rfl) 0 0 ?_ rfl ?_ ?_ ?_ ?_ ?_ ?_
  · norm_num [pdC1]
  · rw [pairEpipolarRegion_pdC1]
    unfold overlaps tileBox
    norm_num [pdC1]
  · rw [empty_eq_false_iff]
    norm_num [pdC1, crop, tileBox]
  · norm_num
  · norm_num [pdC1]
  · norm_num
  · norm_num [pdC1]

/-- C10: every index pair `(id_y, id_x)` returned by
`get_corresponding_tiles_row_col` satisfies the bounds check against some
pair's tiling-grid shape; candidates outside the grid are dropped, never
accessed. -/
theorem get_corresponding_indexes_in_bounds {α : Type} (tg : ℕ → ℕ → Point)
    (row col : ℕ) (pairs : List (PairData α)) :
    ∀ p ∈ (get_corresponding_tiles_row_col tg row col pairs).list_indexes,
      ∃ pd ∈ pairs, 0 ≤ p.1 ∧ p.1 < (pd.grid_rows : ℤ) ∧
        0 ≤ p.2 ∧ p.2 < (pd.grid_cols : ℤ) := by
  intro p hp
  obtain ⟨pd, hpd, _, tl, _, hgrid, rfl⟩ :=
    (mem_list_indexes tg row col pairs p).mp hp
  unfold inGrid at hgrid
  simp only [Bool.and_eq_true, decide_eq_true_eq] at hgrid
  exact ⟨pd, hpd, hgrid.1.2, hgrid.2, hgrid.1.1.1, hgrid.1.1.2⟩

/-- Witness for C10 on the concrete pair: the returned index `(1,1)` is
within the 3×3 grid. -/
theorem get_corresponding_indexes_in_bounds_witness :
    ∃ pd ∈ [pdC1], (0 : ℤ) ≤ 1 ∧ (1 : ℤ) < (pd.grid_rows : ℤ) ∧
      (0 : ℤ) ≤ 1 ∧ (1 : ℤ) < (pd.grid_cols : ℤ) :=
  get_corresponding_indexes_in_bounds tgC1 0 0 [pdC1] (1, 1) pdC1_mem_indexes

end Cars
